import Mathlib

/-!
Verification of the specsmith-cli streaming chat client.

Strings are modelled as lists of characters (`Str`), so that the Python
string primitives used by the source (`str.strip`, `str.rstrip`,
`str.lstrip`, `str.splitlines`, `str.split`, `str.lower`, `"\n".join`)
become executable Lean functions amenable to induction.
-/

/-- Strings of the Python source, modelled as lists of characters. -/

abbrev Str := List Char

/-- Conversion from Lean string literals to the model. -/
def toStr (s : String) : Str := s.data

/-- Code points Python `str.isspace` accepts; `str.strip()` (no argument)
removes exactly these characters from both ends. -/
def spaceCodes : List Nat :=
  [9, 10, 11, 12, 13, 28, 29, 30, 31, 32, 133, 160, 5760,
   8192, 8193, 8194, 8195, 8196, 8197, 8198, 8199, 8200, 8201, 8202,
   8232, 8233, 8239, 8287, 12288]

/-- Whitespace test matching Python `str.isspace` on a single character. -/
def pyIsSpace (c : Char) : Bool := c.toNat ∈ spaceCodes

/-- Python `str.lstrip()` with no argument. -/
def pyLstrip (s : Str) : Str := s.dropWhile pyIsSpace

/-- Python `str.rstrip()` with no argument. -/
def pyRstrip (s : Str) : Str := (s.reverse.dropWhile pyIsSpace).reverse

/-- Python `str.strip()` with no argument. -/
def pyStrip (s : Str) : Str := pyLstrip (pyRstrip s)

/-- Code points Python `str.splitlines` treats as line boundaries
(note: a subset of the whitespace set; 31, 160 are not boundaries). -/
def breakCodes : List Nat := [10, 11, 12, 13, 28, 29, 30, 133, 8232, 8233]

/-- Line-boundary test for `str.splitlines`. -/
def isLineBreakChar (c : Char) : Bool := c.toNat ∈ breakCodes

/-- Prepend a character to the first line of a line list (helper shared by
the split functions). -/
def consHead (c : Char) : List Str → List Str
  | [] => [[c]]
  | l :: ls => (c :: l) :: ls

/-- Python `str.splitlines()`: boundary characters end a line, a final
boundary does not open a new empty line, and carriage-return followed by
newline counts as a single boundary. -/
def splitlines : Str → List Str
  | [] => []
  | [c] => if isLineBreakChar c then [[]] else [[c]]
  | c :: d :: rest =>
    if c = '\r' ∧ d = '\n' then [] :: splitlines rest
    else if isLineBreakChar c then [] :: splitlines (d :: rest)
    else consHead c (splitlines (d :: rest))

/-- Python `s.split("\n")`. -/
def splitOnNl : Str → List Str
  | [] => [[]]
  | c :: rest => if c = '\n' then [] :: splitOnNl rest else consHead c (splitOnNl rest)

/-- Python `"\n".join(lines)`. -/
def joinNl : List Str → Str
  | [] => []
  | [l] => l
  | l :: ls => l ++ '\n' :: joinNl ls

/-!
Markdown render normalization, translated from
`specsmith_cli/chat.py`, `ChatInterface._normalize_markdown_alignment`.
-/

/-- The backtick character (code point 96). -/
def backtickChar : Char := Char.ofNat 96

/-- The three-backtick fence marker tested by `lstripped.startswith`. -/
def fenceMarker : Str := [backtickChar, backtickChar, backtickChar]

/-- One iteration of the normalization loop of
`_normalize_markdown_alignment`: given the current `in_code` flag and one
line, return the updated flag and the line appended to `normalized`. -/
def normLine (inCode : Bool) (line : Str) : Bool × Str :=
  let rline := pyRstrip line
  let lstripped := pyLstrip rline
  if fenceMarker.isPrefixOf lstripped then (!inCode, rline)
  else if inCode then (inCode, rline)
  else
    let leading := rline.length - lstripped.length
    if leading ≤ 3 then (inCode, rline)
    else if 4 ≤ leading then
      if ([('-' : Char)].isPrefixOf lstripped ∨ [('*' : Char)].isPrefixOf lstripped ∨
          [('+' : Char)].isPrefixOf lstripped) ∧ leading ≤ 6 then (inCode, rline)
      else if [('>' : Char)].isPrefixOf lstripped ∧ leading ≤ 6 then (inCode, rline)
      else (inCode, lstripped)
    else (inCode, rline)

/-- The normalization loop over the line list, threading `in_code`. -/
def normalizeLines : Bool → List Str → List Str
  | _, [] => []
  | inCode, l :: ls =>
    let step := normLine inCode l
    step.2 :: normalizeLines step.1 ls

/-- `ChatInterface._normalize_markdown_alignment` from `chat.py`:
split into lines, normalize each line while tracking fenced code blocks,
and join with newlines. -/
def normalize_markdown_alignment (content : Str) : Str :=
  joinNl (normalizeLines false (splitlines content))

/-- Executable test: the final `splitlines` line of the input, if any,
does not consist entirely of whitespace. -/
def lastLineNotBlank (x : Str) : Bool :=
  match (splitlines x).getLast? with
  | none => true
  | some l => !(pyRstrip l).isEmpty

/-- Fence-state trace of the normalization loop: entry i is true exactly
when line i lies strictly inside a fenced block, i.e. the running
`in_code` flag is set before the line and the line is not itself a fence
marker line. -/
def insideFlags : Bool → List Str → List Bool
  | _, [] => []
  | b, l :: ls =>
    if fenceMarker.isPrefixOf (pyLstrip (pyRstrip l)) then false :: insideFlags (!b) ls
    else b :: insideFlags b ls

/-- The per-line behavior outside fences exactly as the specification
words it: at most 3 leading whitespace characters pass through; 4 or more
strip all leading whitespace unless the trimmed line starts with a list
marker or quote marker and the indentation is at most 6, in which case the
line passes through. (Lines are right-stripped on emission; trailing
whitespace is the subject of C10, not of this claim.) -/
def claimC6Render (l : Str) : Str :=
  let r := pyRstrip l
  let s := pyLstrip r
  let k := r.length - s.length
  if k ≤ 3 then r
  else if ([('-' : Char)].isPrefixOf s ∨ [('*' : Char)].isPrefixOf s ∨
      [('+' : Char)].isPrefixOf s ∨ [('>' : Char)].isPrefixOf s) ∧ k ≤ 6 then r
  else s

/-!
JSON decoding. The source calls `json.loads` on each stripped stream line
(`specsmith_cli/api_client.py`, `send_message`). We model JSON values and
a recursive-descent decoder for the standard grammar: objects, arrays,
strings with escapes, integers, and the three literals. (Floats are not
modelled; every theorem quantifying over stream content treats the decoder
as a black box, and every concrete evaluation uses integer-free documents.)
-/

/-- The left curly brace character (code point 123). -/
def lbraceChar : Char := Char.ofNat 123

/-- The right curly brace character (code point 125). -/
def rbraceChar : Char := Char.ofNat 125

/-- Decoded JSON values. -/
inductive JVal where
  | null
  | bool (b : Bool)
  | num (n : Int)
  | str (s : Str)
  | arr (elems : List JVal)
  | obj (fields : List (Str × JVal))

/-- Insignificant whitespace of the JSON grammar. -/
def jsonWsChar (c : Char) : Bool := c = ' ' || c = '\t' || c = '\n' || c = '\r'

def skipJsonWs (s : Str) : Str := s.dropWhile jsonWsChar

def parseHexDigit (c : Char) : Option Nat :=
  if '0' ≤ c ∧ c ≤ '9' then some (c.toNat - 48)
  else if 'a' ≤ c ∧ c ≤ 'f' then some (c.toNat - 87)
  else if 'A' ≤ c ∧ c ≤ 'F' then some (c.toNat - 55)
  else none

/-- Body of a JSON string once the opening quote has been consumed;
returns the decoded characters and the remaining input past the closing
quote. -/
def parseStringBody : Nat → Str → Option (Str × Str)
  | 0, _ => none
  | _ + 1, [] => none
  | fuel + 1, c :: rest =>
    if c = '"' then some ([], rest)
    else if c = '\\' then
      match rest with
      | [] => none
      | e :: rest2 =>
        if e = '"' then (parseStringBody fuel rest2).map (fun p => ('"' :: p.1, p.2))
        else if e = '\\' then (parseStringBody fuel rest2).map (fun p => ('\\' :: p.1, p.2))
        else if e = '/' then (parseStringBody fuel rest2).map (fun p => ('/' :: p.1, p.2))
        else if e = 'b' then (parseStringBody fuel rest2).map (fun p => (Char.ofNat 8 :: p.1, p.2))
        else if e = 'f' then (parseStringBody fuel rest2).map (fun p => (Char.ofNat 12 :: p.1, p.2))
        else if e = 'n' then (parseStringBody fuel rest2).map (fun p => ('\n' :: p.1, p.2))
        else if e = 'r' then (parseStringBody fuel rest2).map (fun p => ('\r' :: p.1, p.2))
        else if e = 't' then (parseStringBody fuel rest2).map (fun p => ('\t' :: p.1, p.2))
        else if e = 'u' then
          match rest2 with
          | h1 :: h2 :: h3 :: h4 :: rest3 =>
            match parseHexDigit h1, parseHexDigit h2, parseHexDigit h3, parseHexDigit h4 with
            | some d1, some d2, some d3, some d4 =>
              (parseStringBody fuel rest3).map
                (fun p => (Char.ofNat (((d1 * 16 + d2) * 16 + d3) * 16 + d4) :: p.1, p.2))
            | _, _, _, _ => none
          | _ => none
        else none
    else if c.toNat < 32 then none
    else (parseStringBody fuel rest).map (fun p => (c :: p.1, p.2))

def isDigitChar (c : Char) : Bool := '0' ≤ c ∧ c ≤ '9'

def digitsToNat (ds : Str) : Nat := ds.foldl (fun acc c => acc * 10 + (c.toNat - 48)) 0

/-- JSON integer literal (the model rejects fractions and exponents). -/
def parseJsonInt (s : Str) : Option (Int × Str) :=
  let core : Str → Option (Nat × Str) := fun t =>
    let ds := t.takeWhile isDigitChar
    let rest := t.dropWhile isDigitChar
    if ds = [] then none
    else if 1 < ds.length ∧ ds.head? = some '0' then none
    else match rest with
      | [] => some (digitsToNat ds, rest)
      | c :: _ => if c = '.' ∨ c = 'e' ∨ c = 'E' then none else some (digitsToNat ds, rest)
  match s with
  | '-' :: t => (core t).map (fun p => (-(p.1 : Int), p.2))
  | t => (core t).map (fun p => ((p.1 : Int), p.2))

mutual

/-- One JSON value, consuming leading whitespace. -/
def parseVal : Nat → Str → Option (JVal × Str)
  | 0, _ => none
  | fuel + 1, s =>
    match skipJsonWs s with
    | [] => none
    | c :: rest =>
      if c = lbraceChar then (parseMembers fuel rest).map (fun p => (JVal.obj p.1, p.2))
      else if c = '[' then (parseElems fuel rest).map (fun p => (JVal.arr p.1, p.2))
      else if c = '"' then (parseStringBody fuel rest).map (fun p => (JVal.str p.1, p.2))
      else if (toStr ("true")).isPrefixOf (c :: rest) then some (JVal.bool true, (c :: rest).drop 4)
      else if (toStr ("false")).isPrefixOf (c :: rest) then some (JVal.bool false, (c :: rest).drop 5)
      else if (toStr ("null")).isPrefixOf (c :: rest) then some (JVal.null, (c :: rest).drop 4)
      else (parseJsonInt (c :: rest)).map (fun p => (JVal.num p.1, p.2))

/-- Object members after the opening brace. -/
def parseMembers : Nat → Str → Option (List (Str × JVal) × Str)
  | 0, _ => none
  | fuel + 1, s =>
    match skipJsonWs s with
    | [] => none
    | c :: rest =>
      if c = rbraceChar then some ([], rest)
      else if c = '"' then
        match parseStringBody fuel rest with
        | some (key, r2) =>
          match skipJsonWs r2 with
          | ':' :: r4 =>
            match parseVal fuel r4 with
            | some (v, r5) =>
              match parseMoreMembers fuel r5 with
              | some (kvs, r6) => some ((key, v) :: kvs, r6)
              | none => none
            | none => none
          | _ => none
        | none => none
      else none

/-- Continuation of an object: a comma and another member, or the closing
brace. -/
def parseMoreMembers : Nat → Str → Option (List (Str × JVal) × Str)
  | 0, _ => none
  | fuel + 1, s =>
    match skipJsonWs s with
    | [] => none
    | c :: rest =>
      if c = rbraceChar then some ([], rest)
      else if c = ',' then
        match skipJsonWs rest with
        | '"' :: r2 =>
          match parseStringBody fuel r2 with
          | some (key, r3) =>
            match skipJsonWs r3 with
            | ':' :: r4 =>
              match parseVal fuel r4 with
              | some (v, r5) =>
                match parseMoreMembers fuel r5 with
                | some (kvs, r6) => some ((key, v) :: kvs, r6)
                | none => none
              | none => none
            | _ => none
          | none => none
        | _ => none
      else none

/-- Array elements after the opening bracket. -/
def parseElems : Nat → Str → Option (List JVal × Str)
  | 0, _ => none
  | fuel + 1, s =>
    match skipJsonWs s with
    | [] => none
    | c :: rest =>
      if c = ']' then some ([], rest)
      else
        match parseVal fuel (c :: rest) with
        | some (v, r2) =>
          match parseMoreElems fuel r2 with
          | some (vs, r3) => some (v :: vs, r3)
          | none => none
        | none => none

/-- Continuation of an array: a comma and another element, or the closing
bracket. -/
def parseMoreElems : Nat → Str → Option (List JVal × Str)
  | 0, _ => none
  | fuel + 1, s =>
    match skipJsonWs s with
    | [] => none
    | c :: rest =>
      if c = ']' then some ([], rest)
      else if c = ',' then
        match parseVal fuel rest with
        | some (v, r2) =>
          match parseMoreElems fuel r2 with
          | some (vs, r3) => some (v :: vs, r3)
          | none => none
        | none => none
      else none

end

/-- Python `json.loads`: parse one document and require only whitespace to
remain. -/
def json_loads (s : Str) : Option JVal :=
  match parseVal (2 * s.length + 4) s with
  | some (v, rest) => if skipJsonWs rest = [] then some v else none
  | none => none

/-!
Streaming decode loop of `SpecSmithAPIClient.send_message`
(`specsmith_cli/api_client.py`, lines 85-99): each network chunk is split
on newlines, each fragment is stripped, empty fragments are skipped, and
each remaining fragment is decoded, decode failures being skipped. There
is no carry of an incomplete line from one chunk to the next.
-/

/-- Decode a list of already-split lines exactly as the inner loop does:
strip, skip empties, decode, skip failures. -/
def decodeLines (lines : List Str) : List JVal :=
  ((lines.map pyStrip).filter (fun l => !l.isEmpty)).filterMap json_loads

/-- The actions one chunk contributes: nothing if the chunk is
whitespace-only, otherwise the decoded results of its newline-split
fragments. -/
def processChunk (chunk : Str) : List JVal :=
  if !(pyStrip chunk).isEmpty then decodeLines (splitOnNl chunk) else []

/-- The full action sequence `send_message` yields for a chunked stream. -/
def streamActions (chunks : List Str) : List JVal :=
  (chunks.map processChunk).flatten

/-- Reference semantics: decode the unsplit stream line by line. -/
def lineDecode (s : Str) : List JVal := decodeLines (splitOnNl s)

/-!
Turn orchestration, translated from `ChatInterface._send_message`
(`specsmith_cli/chat.py`, lines 305-354): message actions feed the live
render region, actions of type `file` are appended to
`pending_file_actions`, all other actions are handled immediately inside
the live region; after the `Live` block closes the queued file actions are
handled in order.
-/

/-- An action dictionary as `_send_message` inspects it: the `type`,
`content` and `filename` entries, plus the type tag of a nested
user-action result (never read by the dispatch code, but needed to state
claim C2). -/
structure ChatAction where
  atype : Option Str
  content : Option Str
  filename : Option Str
  subtype : Option Str
deriving DecidableEq

/-- Observable events of one turn, in order. -/
inductive TurnEvent where
  | render (text : Str)
  | immediate (a : ChatAction)
  | liveClosed
  | filePrompt (a : ChatAction)
deriving DecidableEq

/-- The `async for` loop body of `_send_message`, threading the
accumulated response text: returns the events emitted inside the live
region and the pending file-action queue, in order. -/
def livePhase : List ChatAction → Str → List TurnEvent × List ChatAction
  | [], _ => ([], [])
  | a :: rest, resp =>
    if a.atype = some (toStr ("message")) then
      let content := a.content.getD []
      if content.isEmpty then livePhase rest resp
      else
        let next := livePhase rest (resp ++ content)
        (TurnEvent.render (normalize_markdown_alignment (resp ++ content)) :: next.1, next.2)
    else if a.atype = some (toStr ("file")) then
      let next := livePhase rest resp
      (next.1, a :: next.2)
    else
      let next := livePhase rest resp
      (TurnEvent.immediate a :: next.1, next.2)

/-- Whole-turn event trace of `_send_message`: live-region events, the
close of the live region, then the deferred file prompts in arrival
order. -/
def processTurn (actions : List ChatAction) : List TurnEvent :=
  (livePhase actions []).1 ++
    TurnEvent.liveClosed :: ((livePhase actions []).2.map TurnEvent.filePrompt)

/-- The dispatch test used for the deferred queue: type equals `file`. -/
def isFileAction (a : ChatAction) : Bool := a.atype = some (toStr ("file"))

/-- A `UserActionResult` carrying a `FileSaved` result, as the
specification describes it: wire type `user_action` with nested result
type `file_saved`. -/
def isFileSavedResult (a : ChatAction) : Bool :=
  a.atype = some (toStr ("user_action")) && a.subtype = some (toStr ("file_saved"))

/-- The action the specification calls a FileSaved user-action result:
wire type `user_action`, nested result type `file_saved`. -/
def fileSavedAction : ChatAction :=
  ⟨some (toStr ("user_action")), none, none, some (toStr ("file_saved"))⟩

/-!
Protocol-error reporting, translated from the `httpx.HTTPStatusError`
handlers of `create_session` and `send_message`
(`specsmith_cli/api_client.py`) and the exception display of the chat
loop (`specsmith_cli/chat.py`, lines 353-354 and 186-187), which prints
the caught exception's text unconditionally, in or out of debug mode.
-/

/-- The fixed credentials message of the 401 branches. -/
def invalidCredsMsg : Str :=
  toStr ("Invalid API credentials. Please check your access key ID and token.")

/-- The fixed endpoint message of `create_session`'s 404 branch. -/
def endpointNotFoundMsg : Str := toStr ("API endpoint not found. Please check the API URL.")

def natToStr (n : Nat) : Str := (Nat.repr n).toList

/-- Message of the `ValueError` that `create_session` raises for an HTTP
status error with the given status and response body. -/
def create_session_error (status : Nat) (body : Str) : Str :=
  if status = 401 then invalidCredsMsg
  else if status = 404 then endpointNotFoundMsg
  else toStr ("API error: ") ++ natToStr status ++ toStr (" - ") ++ body

/-- Message of the `ValueError` that `send_message` raises for an HTTP
status error. -/
def send_message_error (status : Nat) (sessionId : Str) (body : Str) : Str :=
  if status = 401 then invalidCredsMsg
  else if status = 404 then toStr ("Session not found: ") ++ sessionId
  else toStr ("API error: ") ++ natToStr status ++ toStr (" - ") ++ body

/-- What the orchestrator displays for a caught exception: the exception
text behind a fixed marker, with no debug-mode gating. -/
def displayError (msg : Str) : Str := toStr ("❌ Error: ") ++ msg

/-!
Quit-keyword test of the interactive loop
(`specsmith_cli/chat.py`, line 202): the loop ends when
`message.lower().strip()` is one of `quit`, `exit`, `q`. Lowercasing is
modelled on the ASCII range, which covers every character of the three
keywords.
-/
def pyLowerChar (c : Char) : Char :=
  if 'A' ≤ c ∧ c ≤ 'Z' then Char.ofNat (c.toNat + 32) else c

/-- Python `str.lower()` (ASCII model). -/
def pyLower (s : Str) : Str := s.map pyLowerChar

def quitKeywords : List Str := [toStr ("quit"), toStr ("exit"), toStr ("q")]

/-- The loop-exit test: `message.lower().strip() in ("quit", "exit", "q")`. -/
def shouldQuit (message : Str) : Bool := pyStrip (pyLower message) ∈ quitKeywords

/-!
File-save handling. `specsmith_cli/utils.py` provides `confirm_overwrite`
(default decline), `confirm_save` (default accept) and
`write_file_safely` (creates parent directories, reports failure without
raising). The dispatcher `handle_file_action` that `chat.py` imports from
`specsmith_cli.utils` is absent from the sources provided (only its
callers and tests are present), so its composition of these helpers is
modelled from the specification.
-/

/-- A confirmation prompt as `rich.prompt.Confirm.ask` poses it: which
question is asked, and the answer an empty reply selects. -/
structure PromptCall where
  isOverwrite : Bool
  defaultAnswer : Bool
deriving DecidableEq

/-- `utils.confirm_overwrite`: overwrite question, default decline. -/
def confirm_overwrite : PromptCall := ⟨true, false⟩

/-- `utils.confirm_save`: save question, default accept. -/
def confirm_save : PromptCall := ⟨false, true⟩

/-- Resolution of a prompt: an explicit yes/no reply, or `none` for a
bare return accepting the default. -/
def resolvePrompt (p : PromptCall) (reply : Option Bool) : Bool :=
  reply.getD p.defaultAnswer

/-- Filesystem model: filenames mapped to contents, most recent write
first; parent-directory creation is implicit in the write. -/
def FileSys := List (Str × Str)

def fileExistsB (fs : FileSys) (f : Str) : Bool := (List.lookup f fs).isSome

def readFile (fs : FileSys) (f : Str) : Option Str := List.lookup f fs

/-- Reported outcome of one file action. -/
inductive FileOutcome where
  | saved (f : Str)
  | skipped (f : Str)
  | failed (f : Str)
deriving DecidableEq

/-- Modelled from the spec: `handle_file_action` (imported by `chat.py`
from `specsmith_cli.utils` but missing from the sources provided).
Per spec section 4.4: if a file of that name already exists, prompt
overwrite (default decline); else prompt save (default accept); on
accept, create parent directories as needed, write the full content and
report success; on decline report skipped; on write failure report the
failure. The user's reply and the success of the write are inputs. -/
def handle_file_action (fs : FileSys) (reply : Option Bool) (writeOk : Bool)
    (filename content : Str) : FileSys × PromptCall × FileOutcome :=
  let prompt := if fileExistsB fs filename then confirm_overwrite else confirm_save
  if resolvePrompt prompt reply then
    if writeOk then (((filename, content) :: fs : FileSys), prompt, FileOutcome.saved filename)
    else (fs, prompt, FileOutcome.failed filename)
  else (fs, prompt, FileOutcome.skipped filename)

/-!
Theorems.
-/

example : splitlines (toStr ("a\r\nb\nc")) = [toStr ("a"), toStr ("b"), toStr ("c")] := by decide

example : splitlines (toStr ("a\n")) = [toStr ("a")] := by decide

example : splitlines (toStr ("\n\n")) = [[], []] := by decide

example : splitlines [] = [] := by decide

example : splitOnNl (toStr ("a\nb")) = [toStr ("a"), toStr ("b")] := by decide

example : splitOnNl [] = [[]] := by decide

example : pyStrip (toStr ("  a b\t")) = toStr ("a b") := by decide

example : joinNl [toStr ("a"), [], toStr ("b")] = toStr ("a\n\nb") := by rfl

example : normalize_markdown_alignment (toStr ("    plain text")) = toStr ("plain text") := by decide

example : normalize_markdown_alignment (toStr ("    - item")) = toStr ("    - item") := by decide

example : normalize_markdown_alignment (toStr ("  a\nb  ")) = toStr ("  a\nb") := by decide

example : normalize_markdown_alignment (toStr ("\n ")) = toStr ("\n") := by decide

example : normalize_markdown_alignment (toStr ("\n")) = toStr ("") := by decide

example : normalize_markdown_alignment (toStr ("```\n    code\n```")) = toStr ("```\n    code\n```") := by decide

/-!
Library of facts about the string primitives.
-/
theorem pyRstrip_eq_rdropWhile (s : Str) : pyRstrip s = List.rdropWhile pyIsSpace s := rfl

theorem pyRstrip_idem (s : Str) : pyRstrip (pyRstrip s) = pyRstrip s := by
  simp only [pyRstrip_eq_rdropWhile]
  exact List.rdropWhile_idempotent pyIsSpace s

theorem pyLstrip_idem (s : Str) : pyLstrip (pyLstrip s) = pyLstrip s :=
  List.dropWhile_idempotent pyIsSpace s

theorem rdropWhile_append_rtakeWhile (p : Char → Bool) (l : Str) :
    List.rdropWhile p l ++ List.rtakeWhile p l = l := by
  rw [List.rdropWhile, List.rtakeWhile, ← List.reverse_append,
    List.takeWhile_append_dropWhile, List.reverse_reverse]

/-- A restatement of `List.rdropWhile_eq_self_iff` through `getLast?`,
avoiding dependent `getLast` proofs. -/
theorem rdropWhile_eq_self_iff_last (p : Char → Bool) (l : Str) :
    List.rdropWhile p l = l ↔ ∀ a, l.getLast? = some a → p a = false := by
  rw [List.rdropWhile_eq_self_iff]
  constructor
  · intro h a ha
    have hne : l ≠ [] := by
      intro hnil
      rw [hnil] at ha
      simp at ha
    have hval := List.getLast?_eq_getLast_of_ne_nil hne
    rw [hval] at ha
    have haa : l.getLast hne = a := Option.some_injective _ ha
    have := h hne
    rw [haa] at this
    simpa using this
  · intro h hne
    have := h (l.getLast hne) (List.getLast?_eq_getLast_of_ne_nil hne)
    simp [this]

/-- The left-stripped form of a right-stripped string is still
right-stripped. -/
theorem pyRstrip_pyStrip (s : Str) : pyRstrip (pyStrip s) = pyStrip s := by
  unfold pyStrip
  rw [pyRstrip_eq_rdropWhile]
  apply (rdropWhile_eq_self_iff_last pyIsSpace _).mpr
  intro a ha
  have hsuf : pyLstrip (pyRstrip s) <:+ pyRstrip s := List.dropWhile_suffix pyIsSpace
  obtain ⟨u, hu⟩ := hsuf
  have hne : pyLstrip (pyRstrip s) ≠ [] := by
    intro h
    rw [h] at ha
    simp at ha
  have h2 : (pyRstrip s).getLast? = some a := by
    rw [← hu, List.getLast?_append_of_ne_nil u hne]
    exact ha
  have h3 : List.rdropWhile pyIsSpace (pyRstrip s) = pyRstrip s := by
    rw [← pyRstrip_eq_rdropWhile]
    exact pyRstrip_idem s
  exact (rdropWhile_eq_self_iff_last pyIsSpace (pyRstrip s)).mp h3 a h2

theorem pyLstrip_pyStrip (s : Str) : pyLstrip (pyStrip s) = pyStrip s := by
  unfold pyStrip
  exact pyLstrip_idem (pyRstrip s)

theorem pyStrip_eq_nil_iff (s : Str) : pyStrip s = [] ↔ ∀ c ∈ s, pyIsSpace c = true := by
  constructor
  · intro h c hc
    have hmem : c ∈ List.rdropWhile pyIsSpace s ++ List.rtakeWhile pyIsSpace s := by
      rw [rdropWhile_append_rtakeWhile]; exact hc
    rcases List.mem_append.mp hmem with hL | hR
    · exact List.dropWhile_eq_nil_iff.mp h c hL
    · exact List.mem_rtakeWhile_imp hR
  · intro h
    have h1 : pyRstrip s = [] := by
      rw [pyRstrip_eq_rdropWhile]
      exact List.rdropWhile_eq_nil_iff.mpr h
    unfold pyStrip
    rw [h1]
    rfl

theorem mem_pyRstrip (s : Str) (c : Char) (h : c ∈ pyRstrip s) : c ∈ s := by
  rw [pyRstrip_eq_rdropWhile] at h
  exact (List.rdropWhile_prefix pyIsSpace s).sublist.subset h

theorem mem_pyLstrip (s : Str) (c : Char) (h : c ∈ pyLstrip s) : c ∈ s :=
  (List.dropWhile_suffix pyIsSpace).sublist.subset h

theorem mem_pyStrip (s : Str) (c : Char) (h : c ∈ pyStrip s) : c ∈ s :=
  mem_pyRstrip s c (mem_pyLstrip (pyRstrip s) c h)

theorem consHead_ne_nil (c : Char) (L : List Str) : consHead c L ≠ [] := by
  cases L <;> simp [consHead]

theorem splitOnNl_ne_nil (s : Str) : splitOnNl s ≠ [] := by
  induction s with
  | nil => simp [splitOnNl]
  | cons c rest ih =>
    by_cases h : c = '\n'
    · simp [splitOnNl, h]
    · simp only [splitOnNl, if_neg h]
      exact consHead_ne_nil c _

theorem mem_splitOnNl_subset (s : Str) (l : Str) (hl : l ∈ splitOnNl s)
    (c : Char) (hc : c ∈ l) : c ∈ s := by
  induction s generalizing l with
  | nil =>
    simp only [splitOnNl, List.mem_singleton] at hl
    subst hl
    exact absurd hc (List.not_mem_nil c)
  | cons d rest ih =>
    by_cases h : d = '\n'
    · simp only [splitOnNl, if_pos h, List.mem_cons] at hl
      rcases hl with h1 | h2
      · subst h1; exact absurd hc (List.not_mem_nil c)
      · exact List.mem_cons_of_mem d (ih l h2 hc)
    · simp only [splitOnNl, if_neg h] at hl
      rcases hrest : splitOnNl rest with _ | ⟨l0, ls0⟩
      · exact absurd hrest (splitOnNl_ne_nil rest)
      · rw [hrest] at hl
        simp only [consHead, List.mem_cons] at hl
        rcases hl with h1 | h2
        · subst h1
          rcases List.mem_cons.mp hc with h3 | h4
          · subst h3; exact List.mem_cons_self c rest
          · exact List.mem_cons_of_mem d (ih l0 (by rw [hrest]; exact List.mem_cons_self l0 ls0) h4)
        · exact List.mem_cons_of_mem d (ih l (by rw [hrest]; exact List.mem_cons_of_mem l0 h2) hc)

theorem mem_consHead_cases (c : Char) (L : List Str) (l : Str)
    (hl : l ∈ consHead c L) :
    (L = [] ∧ l = [c]) ∨ ∃ l0 ls0, L = l0 :: ls0 ∧ (l = c :: l0 ∨ l ∈ ls0) := by
  cases L with
  | nil =>
    left
    simp [consHead] at hl
    exact ⟨rfl, hl⟩
  | cons l0 ls0 =>
    right
    refine ⟨l0, ls0, rfl, ?_⟩
    simpa [consHead] using hl

theorem splitlines_ne_nil (s : Str) (hs : s ≠ []) : splitlines s ≠ [] := by
  match s with
  | [c] => by_cases h : isLineBreakChar c <;> simp [splitlines, h]
  | c :: d :: rest =>
    by_cases h1 : c = '\r' ∧ d = '\n'
    · simp [splitlines, h1]
    · by_cases h2 : isLineBreakChar c
      · simp [splitlines, h1, h2]
      · simp only [splitlines, if_neg h1, if_neg h2]
        exact consHead_ne_nil c _

/-- Characters of any line produced by `splitlines` are never line
boundaries. -/
theorem splitlines_break_free (s : Str) :
    ∀ l ∈ splitlines s, ∀ c ∈ l, isLineBreakChar c = false := by
  induction s using splitlines.induct with
  | case1 =>
    intro l hl
    simp [splitlines] at hl
  | case2 c hc =>
    intro l hl
    simp only [splitlines, if_pos hc, List.mem_singleton] at hl
    subst hl
    intro c' h
    exact absurd h (List.not_mem_nil c')
  | case3 c hc =>
    intro l hl
    simp only [splitlines, if_neg hc, List.mem_singleton] at hl
    subst hl
    intro c' h
    rcases List.mem_singleton.mp h with h2
    subst h2
    simpa using hc
  | case4 c d rest hcd ih =>
    intro l hl
    simp only [splitlines, if_pos hcd, List.mem_cons] at hl
    rcases hl with h1 | h2
    · subst h1
      intro c' h
      exact absurd h (List.not_mem_nil c')
    · exact ih l h2
  | case5 c d rest hcd hc ih =>
    intro l hl
    simp only [splitlines, if_neg hcd, if_pos hc, List.mem_cons] at hl
    rcases hl with h1 | h2
    · subst h1
      intro c' h
      exact absurd h (List.not_mem_nil c')
    · exact ih l h2
  | case6 c d rest hcd hc ih =>
    intro l hl
    simp only [splitlines, if_neg hcd, if_neg hc] at hl
    rcases mem_consHead_cases c _ l hl with ⟨hnil, _⟩ | ⟨l0, ls0, hL, hin⟩
    · exact absurd hnil (splitlines_ne_nil (d :: rest) (by simp))
    · intro c' h
      rcases hin with h3 | h4
      · subst h3
        rcases List.mem_cons.mp h with h5 | h6
        · subst h5
          simpa using hc
        · exact ih l0 (by rw [hL]; exact List.mem_cons_self l0 ls0) c' h6
      · exact ih l (by rw [hL]; exact List.mem_cons_of_mem l0 h4) c' h

theorem splitlines_cons_nl (s : Str) : splitlines ('\n' :: s) = [] :: splitlines s := by
  cases s with
  | nil => simp [splitlines, isLineBreakChar, breakCodes]
  | cons d rest =>
    have h1 : ¬(('\n' : Char) = '\r' ∧ d = '\n') := by
      intro h
      exact absurd h.1 (by decide)
    simp [splitlines, h1, isLineBreakChar, breakCodes]

/-- Splitting after a boundary-free line followed by an explicit newline. -/
theorem splitlines_append_nl (a s : Str) (ha : ∀ c ∈ a, isLineBreakChar c = false) :
    splitlines (a ++ '\n' :: s) = a :: splitlines s := by
  induction a with
  | nil => simpa using splitlines_cons_nl s
  | cons c a' ih =>
    have hc : isLineBreakChar c = false := ha c (List.mem_cons_self c a')
    have hcr : c ≠ '\r' := by
      intro h
      rw [h] at hc
      simp [isLineBreakChar, breakCodes] at hc
    have ha' : ∀ x ∈ a', isLineBreakChar x = false := fun x hx =>
      ha x (List.mem_cons_of_mem c hx)
    have htail := ih ha'
    rcases hX : a' ++ '\n' :: s with _ | ⟨d, rest'⟩
    · exact absurd hX (by simp)
    · have h1 : ¬(c = '\r' ∧ d = '\n') := fun h => hcr h.1
      have : splitlines (c :: (a' ++ '\n' :: s)) = consHead c (splitlines (a' ++ '\n' :: s)) := by
        rw [hX]
        simp [splitlines, h1, hc]
      rw [List.cons_append, this, htail]
      rfl

/-- A nonempty boundary-free string splits into itself alone. -/
theorem splitlines_single (a : Str) (ha : ∀ c ∈ a, isLineBreakChar c = false)
    (hne : a ≠ []) : splitlines a = [a] := by
  induction a with
  | nil => exact absurd rfl hne
  | cons c a' ih =>
    have hc : isLineBreakChar c = false := ha c (List.mem_cons_self c a')
    have hcr : c ≠ '\r' := by
      intro h
      rw [h] at hc
      simp [isLineBreakChar, breakCodes] at hc
    have ha' : ∀ x ∈ a', isLineBreakChar x = false := fun x hx =>
      ha x (List.mem_cons_of_mem c hx)
    cases a' with
    | nil => simp [splitlines, hc]
    | cons d rest =>
      have h1 : ¬(c = '\r' ∧ d = '\n') := fun h => hcr h.1
      have h2 := ih ha' (by simp)
      simp [splitlines, h1, hc, h2, consHead]

/-- Joining then re-splitting boundary-free lines is the identity, as long
as the final line is nonempty. -/
theorem splitlines_joinNl (L : List Str)
    (hfree : ∀ l ∈ L, ∀ c ∈ l, isLineBreakChar c = false)
    (hlast : ∀ last, L.getLast? = some last → last ≠ []) :
    splitlines (joinNl L) = L := by
  induction L with
  | nil => simp [joinNl, splitlines]
  | cons a L' ih =>
    cases L' with
    | nil =>
      have hane : a ≠ [] := hlast a (by simp)
      simp only [joinNl]
      exact splitlines_single a (hfree a (List.mem_cons_self a [])) hane
    | cons b L'' =>
      have hstep : joinNl (a :: b :: L'') = a ++ '\n' :: joinNl (b :: L'') := rfl
      rw [hstep, splitlines_append_nl a _ (hfree a (List.mem_cons_self a _))]
      congr 1
      apply ih
      · intro l hl
        exact hfree l (List.mem_cons_of_mem a hl)
      · intro last hl
        apply hlast
        rw [List.getLast?_cons_cons]
        exact hl

theorem pyRstrip_pyLstrip_pyRstrip (l : Str) :
    pyRstrip (pyLstrip (pyRstrip l)) = pyLstrip (pyRstrip l) := pyRstrip_pyStrip l

theorem pyLstrip_pyLstrip_pyRstrip (l : Str) :
    pyLstrip (pyLstrip (pyRstrip l)) = pyLstrip (pyRstrip l) := pyLstrip_idem _

/-- Closed form of `normLine` with the `let` bindings inlined. -/
theorem normLine_eq (b : Bool) (l : Str) :
    normLine b l =
      if fenceMarker.isPrefixOf (pyLstrip (pyRstrip l)) then (!b, pyRstrip l)
      else if b then (b, pyRstrip l)
      else if (pyRstrip l).length - (pyLstrip (pyRstrip l)).length ≤ 3 then (b, pyRstrip l)
      else if 4 ≤ (pyRstrip l).length - (pyLstrip (pyRstrip l)).length then
        if ([('-' : Char)].isPrefixOf (pyLstrip (pyRstrip l)) ∨
            [('*' : Char)].isPrefixOf (pyLstrip (pyRstrip l)) ∨
            [('+' : Char)].isPrefixOf (pyLstrip (pyRstrip l))) ∧
            (pyRstrip l).length - (pyLstrip (pyRstrip l)).length ≤ 6 then (b, pyRstrip l)
        else if [('>' : Char)].isPrefixOf (pyLstrip (pyRstrip l)) ∧
            (pyRstrip l).length - (pyLstrip (pyRstrip l)).length ≤ 6 then (b, pyRstrip l)
        else (b, pyLstrip (pyRstrip l))
      else (b, pyRstrip l) := rfl

/-- The emitted line is either the right-stripped or the fully stripped
input line. -/
theorem normLine_snd_cases (b : Bool) (l : Str) :
    (normLine b l).2 = pyRstrip l ∨ (normLine b l).2 = pyLstrip (pyRstrip l) := by
  rw [normLine_eq]
  split_ifs <;> simp

/-- Normalizing a line of the normalized output with the same fence state
changes nothing. -/
theorem normLine_stable (b : Bool) (l : Str) :
    normLine b ((normLine b l).2) = normLine b l := by
  rw [normLine_eq b l]
  split_ifs with h1 h2 h3 h4 h5 h6
  · rw [normLine_eq]
    simp only [pyRstrip_idem]
    rw [if_pos h1]
  · rw [normLine_eq]
    simp only [pyRstrip_idem]
    rw [if_neg h1, if_pos h2]
  · rw [normLine_eq]
    simp only [pyRstrip_idem]
    rw [if_neg h1, if_neg h2, if_pos h3]
  · rw [normLine_eq]
    simp only [pyRstrip_idem]
    rw [if_neg h1, if_neg h2, if_neg h3, if_pos h4, if_pos h5]
  · rw [normLine_eq]
    simp only [pyRstrip_idem]
    rw [if_neg h1, if_neg h2, if_neg h3, if_pos h4, if_neg h5, if_pos h6]
  · rw [normLine_eq]
    simp only [pyRstrip_pyLstrip_pyRstrip, pyLstrip_pyLstrip_pyRstrip, Nat.sub_self]
    rw [if_neg h1, if_neg h2, if_pos (by omega : (0 : Nat) ≤ 3)]
  · exfalso
    omega

theorem normalizeLines_cons (b : Bool) (l : Str) (ls : List Str) :
    normalizeLines b (l :: ls) = (normLine b l).2 :: normalizeLines (normLine b l).1 ls := rfl

/-- Re-running the normalization loop over its own output is the
identity. -/
theorem normalizeLines_stable (b : Bool) (L : List Str) :
    normalizeLines b (normalizeLines b L) = normalizeLines b L := by
  induction L generalizing b with
  | nil => rfl
  | cons l ls ih =>
    rw [normalizeLines_cons, normalizeLines_cons, normLine_stable, ih]

theorem normalizeLines_rstrip_fixed (b : Bool) (L : List Str) :
    ∀ l' ∈ normalizeLines b L, pyRstrip l' = l' := by
  induction L generalizing b with
  | nil =>
    intro l' h
    exact absurd h (List.not_mem_nil l')
  | cons l ls ih =>
    intro l' h
    rw [normalizeLines_cons] at h
    rcases List.mem_cons.mp h with h1 | h2
    · subst h1
      rcases normLine_snd_cases b l with hc | hc <;> rw [hc]
      · exact pyRstrip_idem l
      · exact pyRstrip_pyLstrip_pyRstrip l
    · exact ih (normLine b l).1 l' h2

theorem normalizeLines_break_free (b : Bool) (L : List Str)
    (h : ∀ l ∈ L, ∀ c ∈ l, isLineBreakChar c = false) :
    ∀ l' ∈ normalizeLines b L, ∀ c ∈ l', isLineBreakChar c = false := by
  induction L generalizing b with
  | nil =>
    intro l' hl'
    exact absurd hl' (List.not_mem_nil l')
  | cons l ls ih =>
    intro l' hl' c hc
    rw [normalizeLines_cons] at hl'
    rcases List.mem_cons.mp hl' with h1 | h2
    · subst h1
      rcases normLine_snd_cases b l with hcs | hcs <;> rw [hcs] at hc
      · exact h l (List.mem_cons_self l ls) c (mem_pyRstrip l c hc)
      · exact h l (List.mem_cons_self l ls) c
          (mem_pyRstrip l c (mem_pyLstrip (pyRstrip l) c hc))
    · exact ih (normLine b l).1 (fun x hx => h x (List.mem_cons_of_mem l hx)) l' h2 c hc

theorem getLast?_cons_of_ne {a : Str} {l : List Str} (h : l ≠ []) :
    (a :: l).getLast? = l.getLast? := by
  cases l with
  | nil => exact absurd rfl h
  | cons b t => exact List.getLast?_cons_cons

theorem normalizeLines_getLast? (b : Bool) (L : List Str) (last : Str)
    (h : L.getLast? = some last) :
    ∃ out, (normalizeLines b L).getLast? = some out ∧
      (out = pyRstrip last ∨ out = pyLstrip (pyRstrip last)) := by
  induction L generalizing b with
  | nil => simp at h
  | cons l ls ih =>
    cases ls with
    | nil =>
      simp only [List.getLast?_singleton] at h
      have h2 : last = l := by
        have := Option.some_injective _ h
        exact this.symm
      subst h2
      exact ⟨(normLine b last).2, by simp [normalizeLines_cons, normalizeLines], normLine_snd_cases b last⟩
    | cons m ms =>
      have h' : (m :: ms).getLast? = some last := by
        rw [← List.getLast?_cons_cons]
        exact h
      obtain ⟨out, ho, hcases⟩ := ih (normLine b l).1 h'
      refine ⟨out, ?_, hcases⟩
      rw [normalizeLines_cons]
      have hne : normalizeLines (normLine b l).1 (m :: ms) ≠ [] := by
        rw [normalizeLines_cons]
        simp
      rw [getLast?_cons_of_ne hne]
      exact ho

theorem pyLstrip_ne_nil_of_rstrip (s : Str) (h : pyRstrip s ≠ []) :
    pyLstrip (pyRstrip s) ≠ [] := by
  intro hn
  have hall : ∀ x ∈ pyRstrip s, pyIsSpace x = true := List.dropWhile_eq_nil_iff.mp hn
  have hlast : ¬pyIsSpace ((List.rdropWhile pyIsSpace s).getLast
      (by rw [← pyRstrip_eq_rdropWhile]; exact h)) = true := by
    exact List.rdropWhile_last_not pyIsSpace s (by rw [← pyRstrip_eq_rdropWhile]; exact h)
  apply hlast
  rw [pyRstrip_eq_rdropWhile] at hall
  exact hall _ (List.getLast_mem _)

theorem joinNl_ne_nil (L : List Str) (last : Str) (h : L.getLast? = some last)
    (hne : last ≠ []) : joinNl L ≠ [] := by
  cases L with
  | nil => simp at h
  | cons a t =>
    cases t with
    | nil =>
      simp only [List.getLast?_singleton] at h
      have : last = a := (Option.some_injective _ h).symm
      subst this
      simpa [joinNl] using hne
    | cons m ms =>
      have : joinNl (a :: m :: ms) = a ++ '\n' :: joinNl (m :: ms) := rfl
      rw [this]
      simp

theorem joinNl_getLast? (L : List Str) (last : Str) (h : L.getLast? = some last)
    (hne : last ≠ []) : (joinNl L).getLast? = last.getLast? := by
  induction L with
  | nil => simp at h
  | cons a t ih =>
    cases t with
    | nil =>
      simp only [List.getLast?_singleton] at h
      have : last = a := (Option.some_injective _ h).symm
      subst this
      rfl
    | cons m ms =>
      have h' : (m :: ms).getLast? = some last := by
        rw [← List.getLast?_cons_cons]
        exact h
      have hjoin : joinNl (a :: m :: ms) = a ++ '\n' :: joinNl (m :: ms) := rfl
      rw [hjoin, List.getLast?_append_of_ne_nil a (by simp)]
      have hni : joinNl (m :: ms) ≠ [] := joinNl_ne_nil _ _ h' hne
      have hsplit : ('\n' :: joinNl (m :: ms)) = ['\n'] ++ joinNl (m :: ms) := rfl
      rw [hsplit, List.getLast?_append_of_ne_nil _ hni]
      exact ih h'

/-- Claim C5 (amended): the render normalization is idempotent on every
input whose final line is not whitespace-only; in general a whitespace-only
final line produces a trailing newline that a second pass then removes. -/
theorem c5_normalize_idem_amended (x : Str) (h : lastLineNotBlank x = true) :
    normalize_markdown_alignment (normalize_markdown_alignment x) =
      normalize_markdown_alignment x := by
  unfold normalize_markdown_alignment
  have hfree : ∀ l ∈ splitlines x, ∀ c ∈ l, isLineBreakChar c = false :=
    splitlines_break_free x
  have hfree' : ∀ l ∈ normalizeLines false (splitlines x), ∀ c ∈ l, isLineBreakChar c = false :=
    normalizeLines_break_free false (splitlines x) hfree
  have hlast' : ∀ last, (normalizeLines false (splitlines x)).getLast? = some last →
      last ≠ [] := by
    intro last hlg
    cases hLl : (splitlines x).getLast? with
    | none =>
      have hnil : splitlines x = [] := List.getLast?_eq_none_iff.mp hLl
      rw [hnil] at hlg
      simp [normalizeLines] at hlg
    | some l0 =>
      have hb := h
      unfold lastLineNotBlank at hb
      rw [hLl] at hb
      simp only [Bool.not_eq_true'] at hb
      have hr0 : pyRstrip l0 ≠ [] := by
        intro hcon
        rw [hcon] at hb
        simp at hb
      obtain ⟨out, ho, hcase⟩ := normalizeLines_getLast? false (splitlines x) l0 hLl
      have hout : out = last := by
        rw [ho] at hlg
        exact Option.some_injective _ hlg
      subst hout
      rcases hcase with h1 | h1 <;> rw [h1]
      · exact hr0
      · exact pyLstrip_ne_nil_of_rstrip l0 hr0
  rw [splitlines_joinNl _ hfree' hlast', normalizeLines_stable]

/-- Claim C5 witness: the amended idempotence at the one-line input
consisting of the single letter a. -/
theorem c5_witness :
    lastLineNotBlank (toStr ("a")) = true ∧
      normalize_markdown_alignment (normalize_markdown_alignment (toStr ("a"))) =
        normalize_markdown_alignment (toStr ("a")) :=
  ⟨by decide, c5_normalize_idem_amended (toStr ("a")) (by decide)⟩

/-- Claim C5 counterexample: on the two-character input consisting of a
newline and a space, one normalization pass returns a bare newline while a
second pass returns the empty string, so `normalize(normalize(x))` differs
from `normalize(x)` and the claimed unconditional idempotence is false. -/
theorem c5_counterexample :
    normalize_markdown_alignment (normalize_markdown_alignment (toStr ("\n "))) ≠
      normalize_markdown_alignment (toStr ("\n ")) := by decide

/-- Lines recovered from a joined line list are among the original lines,
except possibly an empty line. -/
theorem splitlines_joinNl_subset (L : List Str)
    (hfree : ∀ l ∈ L, ∀ c ∈ l, isLineBreakChar c = false) :
    ∀ l' ∈ splitlines (joinNl L), l' ∈ L ∨ l' = [] := by
  induction L with
  | nil =>
    intro l' h
    simp [joinNl, splitlines] at h
  | cons a t ih =>
    cases t with
    | nil =>
      intro l' h
      by_cases hae : a = []
      · subst hae
        simp only [joinNl, splitlines] at h
        exact absurd h (List.not_mem_nil l')
      · rw [show joinNl [a] = a from rfl,
          splitlines_single a (hfree a (List.mem_cons_self a [])) hae] at h
        left
        exact h
    | cons b t' =>
      intro l' h
      rw [show joinNl (a :: b :: t') = a ++ '\n' :: joinNl (b :: t') from rfl,
        splitlines_append_nl a _ (hfree a (List.mem_cons_self a _))] at h
      rcases List.mem_cons.mp h with h1 | h2
      · left
        rw [h1]
        exact List.mem_cons_self a _
      · rcases ih (fun l hl => hfree l (List.mem_cons_of_mem a hl)) l' h2 with h3 | h3
        · left
          exact List.mem_cons_of_mem a h3
        · right
          exact h3

/-- Claim C10 (amended): every line of the normalized output carries no
trailing whitespace; and provided the final input line is not
whitespace-only, the output does not end with a newline. The unconditional
no-trailing-newline half of the claim is refuted by `c10_counterexample`. -/
theorem c10_no_trailing_amended (x : Str) :
    (∀ l ∈ splitlines (normalize_markdown_alignment x), pyRstrip l = l) ∧
      (lastLineNotBlank x = true →
        ∀ c, (normalize_markdown_alignment x).getLast? = some c → c ≠ '\n') := by
  have hfree : ∀ l ∈ splitlines x, ∀ c ∈ l, isLineBreakChar c = false :=
    splitlines_break_free x
  have hfree' : ∀ l ∈ normalizeLines false (splitlines x), ∀ c ∈ l, isLineBreakChar c = false :=
    normalizeLines_break_free false (splitlines x) hfree
  constructor
  · intro l hl
    unfold normalize_markdown_alignment at hl
    rcases splitlines_joinNl_subset _ hfree' l hl with h1 | h1
    · exact normalizeLines_rstrip_fixed false (splitlines x) l h1
    · rw [h1]
      rfl
  · intro h c hc
    unfold normalize_markdown_alignment at hc
    cases hLl : (splitlines x).getLast? with
    | none =>
      have hnil : splitlines x = [] := List.getLast?_eq_none_iff.mp hLl
      rw [hnil] at hc
      simp [normalizeLines, joinNl] at hc
    | some l0 =>
      have hb := h
      unfold lastLineNotBlank at hb
      rw [hLl] at hb
      simp only [Bool.not_eq_true'] at hb
      have hr0 : pyRstrip l0 ≠ [] := by
        intro hcon
        rw [hcon] at hb
        simp at hb
      obtain ⟨out, ho, hcase⟩ := normalizeLines_getLast? false (splitlines x) l0 hLl
      have houtne : out ≠ [] := by
        rcases hcase with h1 | h1 <;> rw [h1]
        · exact hr0
        · exact pyLstrip_ne_nil_of_rstrip l0 hr0
      have hj := joinNl_getLast? _ out ho houtne
      rw [hj] at hc
      have hcmem : c ∈ out := by
        have := List.mem_getLast?_eq_getLast hc
        obtain ⟨hne2, hval⟩ := this
        rw [hval]
        exact List.getLast_mem hne2
      have homem : out ∈ normalizeLines false (splitlines x) := by
        have hne3 : normalizeLines false (splitlines x) ≠ [] := by
          intro hcon
          rw [hcon] at ho
          simp at ho
        have := List.getLast?_eq_getLast_of_ne_nil hne3
        rw [this] at ho
        have hval := Option.some_injective _ ho
        rw [← hval]
        exact List.getLast_mem hne3
      have := hfree' out homem c hcmem
      intro hnl
      rw [hnl] at this
      simp [isLineBreakChar, breakCodes] at this

/-- Claim C10 witness: the amended statement instantiated at a one-line
input with trailing spaces. -/
theorem c10_witness :
    (∀ l ∈ splitlines (normalize_markdown_alignment (toStr ("a  "))), pyRstrip l = l) ∧
      (∀ c, (normalize_markdown_alignment (toStr ("a  "))).getLast? = some c → c ≠ '\n') :=
  ⟨(c10_no_trailing_amended (toStr ("a  "))).1,
    (c10_no_trailing_amended (toStr ("a  "))).2 (by decide)⟩

/-- Claim C10 counterexample: the input of two newlines normalizes to a
single newline, so the output ends with a newline even though the claim
says it never does. -/
theorem c10_counterexample :
    (normalize_markdown_alignment (toStr ("\n\n"))).getLast? = some '\n' := by decide

theorem normLine_fst (b : Bool) (l : Str) :
    (normLine b l).1 =
      if fenceMarker.isPrefixOf (pyLstrip (pyRstrip l)) then !b else b := by
  rw [normLine_eq]
  split_ifs <;> rfl

/-- Claim C3 (amended): a line lying strictly inside a fenced code block is
emitted with its leading whitespace fully preserved, changed only by
removal of trailing whitespace: the output line is exactly the
right-stripped input line. The byte-for-byte form of the claim is refuted
by `c3_counterexample`. -/
theorem c3_inside_fence_amended (b : Bool) (lines : List Str) (i : Nat)
    (h : (insideFlags b lines)[i]? = some true) :
    (normalizeLines b lines)[i]? = lines[i]?.map pyRstrip := by
  induction lines generalizing b i with
  | nil => simp [insideFlags] at h
  | cons l ls ih =>
    by_cases hf : fenceMarker.isPrefixOf (pyLstrip (pyRstrip l)) = true
    · rw [show insideFlags b (l :: ls) = false :: insideFlags (!b) ls by
        simp [insideFlags, hf]] at h
      cases i with
      | zero => simp at h
      | succ j =>
        simp only [List.getElem?_cons_succ] at h
        have hstate : (normLine b l).1 = !b := by
          rw [normLine_fst, if_pos hf]
        rw [normalizeLines_cons]
        simp only [List.getElem?_cons_succ]
        rw [hstate]
        exact ih (!b) j h
    · rw [show insideFlags b (l :: ls) = b :: insideFlags b ls by
        simp [insideFlags, hf]] at h
      cases i with
      | zero =>
        simp only [List.getElem?_cons_zero] at h
        have hb : b = true := Option.some_injective _ h
        subst hb
        rw [normalizeLines_cons]
        simp only [List.getElem?_cons_zero, Option.map_some']
        congr 1
        rw [normLine_eq, if_neg (by simpa using hf), if_pos rfl]
      | succ j =>
        simp only [List.getElem?_cons_succ] at h
        have hstate : (normLine b l).1 = b := by
          rw [normLine_fst, if_neg (by simpa using hf)]
        rw [normalizeLines_cons]
        simp only [List.getElem?_cons_succ]
        rw [hstate]
        exact ih b j h

/-- Claim C3 witness: inside a fence, a line with eight leading spaces and
no trailing whitespace passes through completely untouched. -/
theorem c3_witness :
    (insideFlags false [toStr ("```"), toStr ("        x"), toStr ("```")])[1]? = some true ∧
      (normalizeLines false [toStr ("```"), toStr ("        x"), toStr ("```")])[1]? =
        ([toStr ("```"), toStr ("        x"), toStr ("```")])[1]?.map pyRstrip ∧
      ([toStr ("```"), toStr ("        x"), toStr ("```")])[1]?.map pyRstrip =
        some (toStr ("        x")) :=
  ⟨by decide, c3_inside_fence_amended false _ 1 (by decide), by decide⟩

/-- Claim C3 counterexample: a line with trailing whitespace strictly
inside a fence is not returned byte-for-byte: its trailing space is
stripped. -/
theorem c3_counterexample :
    (insideFlags false [toStr ("```"), toStr ("x "), toStr ("```")])[1]? = some true ∧
      (normalizeLines false [toStr ("```"), toStr ("x "), toStr ("```")])[1]? ≠
        some (toStr ("x ")) := by decide

theorem claimC6Render_eq (l : Str) :
    claimC6Render l =
      if (pyRstrip l).length - (pyLstrip (pyRstrip l)).length ≤ 3 then pyRstrip l
      else if ([('-' : Char)].isPrefixOf (pyLstrip (pyRstrip l)) ∨
          [('*' : Char)].isPrefixOf (pyLstrip (pyRstrip l)) ∨
          [('+' : Char)].isPrefixOf (pyLstrip (pyRstrip l)) ∨
          [('>' : Char)].isPrefixOf (pyLstrip (pyRstrip l))) ∧
          (pyRstrip l).length - (pyLstrip (pyRstrip l)).length ≤ 6 then pyRstrip l
      else pyLstrip (pyRstrip l) := rfl

/-- Claim C6: outside a fenced block, a non-fence line is emitted exactly
as the specification describes: with at most 3 leading whitespace
characters it passes through with its leading whitespace unchanged; with 4
or more, all leading whitespace is stripped unless the trimmed line starts
with a list marker or the quote marker and the indentation is at most 6,
in which case it is preserved. -/
theorem c6_outside_fence (l : Str)
    (h : fenceMarker.isPrefixOf (pyLstrip (pyRstrip l)) = false) :
    normLine false l = (false, claimC6Render l) := by
  rw [normLine_eq, claimC6Render_eq]
  rw [if_neg (by simp [h]), if_neg (by simp)]
  split_ifs with h1 h2 h3 h4 h5
  all_goals first
    | rfl
    | (exfalso; omega)
    | (exfalso; tauto)

/-- Claim C6 witness: the specification's two examples, a plain line with
four leading spaces is stripped while a list item with four leading spaces
is preserved unchanged. -/
theorem c6_witness :
    normLine false (toStr ("    plain text")) = (false, toStr ("plain text")) ∧
      normLine false (toStr ("    - item")) = (false, toStr ("    - item")) :=
  ⟨(c6_outside_fence (toStr ("    plain text")) (by decide)).trans (by decide),
    (c6_outside_fence (toStr ("    - item")) (by decide)).trans (by decide)⟩

example : json_loads (toStr ("\x7b\x7d")) = some (JVal.obj []) := rfl

example : json_loads (toStr ("\x7b")) = none := rfl

example : json_loads (toStr ("\x7d")) = none := rfl

example : json_loads (toStr ("invalid json")) = none := rfl

example : json_loads (toStr ("\x7b\"type\": \"message\", \"content\": \"Valid\"\x7d")) =
    some (JVal.obj [(toStr ("type"), JVal.str (toStr ("message"))),
      (toStr ("content"), JVal.str (toStr ("Valid")))]) := rfl

example : json_loads (toStr ("[1, -2, null, true]")) =
    some (JVal.arr [JVal.num 1, JVal.num (-2), JVal.null, JVal.bool true]) := rfl

theorem decodeLines_append (xs ys : List Str) :
    decodeLines (xs ++ ys) = decodeLines xs ++ decodeLines ys := by
  unfold decodeLines
  rw [List.map_append, List.filter_append, List.filterMap_append]

theorem decodeLines_nil_of_all_space (lines : List Str)
    (h : ∀ l ∈ lines, pyStrip l = []) : decodeLines lines = [] := by
  unfold decodeLines
  have : (lines.map pyStrip).filter (fun l => !l.isEmpty) = [] := by
    apply List.filter_eq_nil_iff.mpr
    intro a ha
    obtain ⟨l, hl, hla⟩ := List.mem_map.mp ha
    rw [← hla, h l hl]
    simp
  rw [this]
  rfl

theorem processChunk_eq_lineDecode (c : Str) : processChunk c = lineDecode c := by
  unfold processChunk lineDecode
  by_cases h : (pyStrip c).isEmpty
  · rw [if_neg (by simp [h])]
    have hall : ∀ x ∈ c, pyIsSpace x = true :=
      (pyStrip_eq_nil_iff c).mp (by simpa using h)
    have : ∀ l ∈ splitOnNl c, pyStrip l = [] := by
      intro l hl
      apply (pyStrip_eq_nil_iff l).mpr
      intro x hx
      exact hall x (mem_splitOnNl_subset c l hl x hx)
    exact (decodeLines_nil_of_all_space _ this).symm
  · rw [if_pos (by simp [h])]

theorem splitOnNl_append_nl (x y : Str) :
    splitOnNl (x ++ '\n' :: y) = splitOnNl x ++ splitOnNl y := by
  induction x with
  | nil => simp [splitOnNl]
  | cons c x' ih =>
    by_cases h : c = '\n'
    · subst h
      rw [List.cons_append]
      simp only [splitOnNl, if_pos rfl]
      rw [ih]
      rfl
    · rw [List.cons_append]
      simp only [splitOnNl, if_neg h]
      rw [ih]
      rcases hx : splitOnNl x' with _ | ⟨l0, ls0⟩
      · exact absurd hx (splitOnNl_ne_nil x')
      · rfl

/-- Claim C1 (amended): when every chunk boundary falls on a line boundary
(each chunk is empty or ends with a newline), the action sequence produced
by `send_message` equals the line-by-line decode of the unsplit stream. A
line split across two chunks is instead decoded per fragment, refuting the
unrestricted claim (`c1_counterexample`). -/
theorem c1_line_aligned_amended (chunks : List Str)
    (h : ∀ c ∈ chunks, c = [] ∨ c.getLast? = some '\n') :
    streamActions chunks = lineDecode chunks.flatten := by
  induction chunks with
  | nil => rfl
  | cons c cs ih =>
    have htail : ∀ x ∈ cs, x = [] ∨ x.getLast? = some '\n' := fun x hx =>
      h x (List.mem_cons_of_mem c hx)
    have hstep : streamActions (c :: cs) = processChunk c ++ streamActions cs := by
      unfold streamActions
      rw [List.map_cons, List.flatten_cons]
    rcases h c (List.mem_cons_self c cs) with hc | hc
    · subst hc
      rw [hstep, ih htail]
      have h1 : processChunk [] = [] := rfl
      rw [h1]
      rfl
    · obtain hdec := List.dropLast_append_getLast? '\n' hc
      rw [hstep, ih htail, processChunk_eq_lineDecode]
      have hj : (c :: cs).flatten = c.dropLast ++ '\n' :: cs.flatten := by
        rw [List.flatten_cons]
        conv_lhs => rw [← hdec]
        rw [List.append_assoc]
        rfl
      rw [hj]
      have hc2 : decodeLines (splitOnNl c) = decodeLines (splitOnNl c.dropLast) := by
        conv_lhs => rw [← hdec]
        rw [splitOnNl_append_nl, decodeLines_append,
          show decodeLines (splitOnNl []) = [] from rfl, List.append_nil]
      unfold lineDecode
      rw [splitOnNl_append_nl, decodeLines_append, hc2]

/-- Claim C1 witness: two line-aligned chunks decode exactly as the
unsplit stream does. -/
theorem c1_witness :
    (∀ c ∈ [toStr ("\x7b\x7d\n"), toStr ("\x7b\"a\": 1\x7d\n")],
        c = [] ∨ c.getLast? = some '\n') ∧
      streamActions [toStr ("\x7b\x7d\n"), toStr ("\x7b\"a\": 1\x7d\n")] =
        lineDecode ([toStr ("\x7b\x7d\n"), toStr ("\x7b\"a\": 1\x7d\n")] : List Str).flatten ∧
      streamActions [toStr ("\x7b\x7d\n"), toStr ("\x7b\"a\": 1\x7d\n")] =
        [JVal.obj [], JVal.obj [(toStr ("a"), JVal.num 1)]] :=
  ⟨by decide,
    c1_line_aligned_amended [toStr ("\x7b\x7d\n"), toStr ("\x7b\"a\": 1\x7d\n")] (by decide),
    rfl⟩

/-- Claim C1 counterexample: the one-line stream consisting of an empty
JSON object, split into the two chunks left-brace and right-brace, yields
no action at all (each fragment fails to decode and is skipped), while the
unsplit stream decodes to one action: `send_message` keeps no buffer for incomplete lines
across chunks, so the claimed reassembly invariance is false. -/
theorem c1_counterexample :
    streamActions [[lbraceChar], [rbraceChar]] = [] ∧
      lineDecode ([[lbraceChar], [rbraceChar]] : List Str).flatten = [JVal.obj []] ∧
      streamActions [[lbraceChar], [rbraceChar]] ≠
        lineDecode ([[lbraceChar], [rbraceChar]] : List Str).flatten :=
  ⟨rfl, rfl, fun h => absurd (congrArg List.length h) (by decide)⟩

/-- Claim C4: a stream line whose JSON decode fails is skipped without
terminating the sequence, and all lines around it still decode: deleting
one undecodable line from the line list leaves the decoded action sequence
of the remaining lines unchanged. -/
theorem c4_bad_line_skipped (xs ys : List Str) (b : Str)
    (h : json_loads (pyStrip b) = none) :
    decodeLines (xs ++ b :: ys) = decodeLines xs ++ decodeLines ys := by
  have hmid : decodeLines [b] = [] := by
    unfold decodeLines
    by_cases hb : (pyStrip b).isEmpty
    · rw [show ([b] : List Str).map pyStrip = [pyStrip b] from rfl]
      rw [List.filter_cons]
      simp [hb]
    · rw [show ([b] : List Str).map pyStrip = [pyStrip b] from rfl]
      rw [List.filter_cons]
      simp only [hb]
      simp only [Bool.not_false, if_pos]
      rw [List.filterMap_cons, h]
      rfl
  have hsplit : xs ++ b :: ys = xs ++ [b] ++ ys := by simp
  rw [hsplit, decodeLines_append, decodeLines_append, hmid, List.append_nil]

/-- Claim C4 witness: the specification's three-line stream (valid,
invalid, valid) yields exactly the two message actions, and removing the
undecodable middle line leaves the decode unchanged. -/
theorem c4_witness :
    decodeLines ([toStr ("\x7b\"type\":\"message\",\"content\":\"Valid\"\x7d")] ++
        toStr ("invalid json") ::
          [toStr ("\x7b\"type\":\"message\",\"content\":\"Also valid\"\x7d")]) =
      decodeLines [toStr ("\x7b\"type\":\"message\",\"content\":\"Valid\"\x7d")] ++
        decodeLines [toStr ("\x7b\"type\":\"message\",\"content\":\"Also valid\"\x7d")] ∧
      streamActions [toStr ("\x7b\"type\":\"message\",\"content\":\"Valid\"\x7d\n"),
          toStr ("invalid json\n"),
          toStr ("\x7b\"type\":\"message\",\"content\":\"Also valid\"\x7d\n")] =
        [JVal.obj [(toStr ("type"), JVal.str (toStr ("message"))),
            (toStr ("content"), JVal.str (toStr ("Valid")))],
          JVal.obj [(toStr ("type"), JVal.str (toStr ("message"))),
            (toStr ("content"), JVal.str (toStr ("Also valid")))]] :=
  ⟨c4_bad_line_skipped [toStr ("\x7b\"type\":\"message\",\"content\":\"Valid\"\x7d")]
      [toStr ("\x7b\"type\":\"message\",\"content\":\"Also valid\"\x7d")]
      (toStr ("invalid json")) rfl,
    rfl⟩

theorem livePhase_pending (actions : List ChatAction) (resp : Str) :
    (livePhase actions resp).2 = actions.filter isFileAction := by
  induction actions generalizing resp with
  | nil => rfl
  | cons a rest ih =>
    by_cases h1 : a.atype = some (toStr ("message"))
    · have hnf : isFileAction a = false := by
        simp only [isFileAction, h1]
        decide
      by_cases h2 : (a.content.getD []).isEmpty
      · simp only [livePhase, if_pos h1, if_pos h2, List.filter_cons, hnf]
        simp only [Bool.false_eq_true, if_false]
        exact ih resp
      · simp only [livePhase, if_pos h1, if_neg h2, List.filter_cons, hnf]
        simp only [Bool.false_eq_true, if_false]
        exact ih _
    · by_cases h2 : a.atype = some (toStr ("file"))
      · have hf : isFileAction a = true := by
          simp only [isFileAction, h2]
          decide
        simp only [livePhase, if_neg h1, if_pos h2, List.filter_cons, hf, if_true]
        rw [ih resp]
      · have hnf : isFileAction a = false := by
          simp only [isFileAction, decide_eq_false_iff_not]
          exact h2
        simp only [livePhase, if_neg h1, if_neg h2, List.filter_cons, hnf]
        simp only [Bool.false_eq_true, if_false]
        exact ih resp

theorem livePhase_events (actions : List ChatAction) (resp : Str) :
    ∀ e ∈ (livePhase actions resp).1,
      (∀ a, e ≠ TurnEvent.filePrompt a) ∧ e ≠ TurnEvent.liveClosed := by
  induction actions generalizing resp with
  | nil =>
    intro e he
    exact absurd he (List.not_mem_nil e)
  | cons a rest ih =>
    intro e he
    by_cases h1 : a.atype = some (toStr ("message"))
    · by_cases h2 : (a.content.getD []).isEmpty
      · rw [show (livePhase (a :: rest) resp).1 = (livePhase rest resp).1 by
          simp only [livePhase, if_pos h1, if_pos h2]] at he
        exact ih resp e he
      · rw [show (livePhase (a :: rest) resp).1 =
            TurnEvent.render (normalize_markdown_alignment (resp ++ a.content.getD [])) ::
              (livePhase rest (resp ++ a.content.getD [])).1 by
          simp only [livePhase, if_pos h1, if_neg h2]] at he
        rcases List.mem_cons.mp he with h3 | h3
        · subst h3
          exact ⟨fun x => by simp, by simp⟩
        · exact ih _ e h3
    · by_cases h2 : a.atype = some (toStr ("file"))
      · rw [show (livePhase (a :: rest) resp).1 = (livePhase rest resp).1 by
          simp only [livePhase, if_neg h1, if_pos h2]] at he
        exact ih resp e he
      · rw [show (livePhase (a :: rest) resp).1 =
            TurnEvent.immediate a :: (livePhase rest resp).1 by
          simp only [livePhase, if_neg h1, if_neg h2]] at he
        rcases List.mem_cons.mp he with h3 | h3
        · subst h3
          exact ⟨fun x => by simp, by simp⟩
        · exact ih resp e h3

/-- Claim C2 (amended): during one turn every action of type `file` (a
`FileProposal`) is appended to the pending queue and prompted only after
the live region has closed, in arrival order, and no file prompt occurs
inside the live region. A `UserActionResult` of kind `FileSaved` (wire
type `user_action`) is NOT queued: it is dispatched immediately during the
live region (`c2_counterexample`). -/
theorem c2_file_actions_deferred_amended (actions : List ChatAction) :
    ∃ live, processTurn actions =
        live ++ TurnEvent.liveClosed ::
          ((actions.filter isFileAction).map TurnEvent.filePrompt) ∧
      ∀ e ∈ live, (∀ a, e ≠ TurnEvent.filePrompt a) ∧ e ≠ TurnEvent.liveClosed := by
  refine ⟨(livePhase actions []).1, ?_, livePhase_events actions []⟩
  unfold processTurn
  rw [livePhase_pending]

/-- Claim C2 counterexample: a FileSaved user-action result is
not appended to the pending-file-save queue; it is handled immediately
while the live region is open, refuting the claim that it is queued. -/
theorem c2_counterexample :
    isFileSavedResult fileSavedAction = true ∧
      (livePhase [fileSavedAction] []).2 = [] ∧
      processTurn [fileSavedAction] =
        [TurnEvent.immediate fileSavedAction, TurnEvent.liveClosed] := by
  refine ⟨by decide, ?_, ?_⟩ <;> rfl

/-- Claim C7 (amended): a 401, on session creation or on a message send,
is displayed as the fixed credentials message, independent of the server
response body and never containing it; a 404 on session creation likewise
maps to a fixed endpoint message. For any other status the displayed
message embeds the status code and the raw response body
(`c7_counterexample`), regardless of verbose mode. -/
theorem c7_fixed_auth_message_amended (body body2 sid : Str) :
    displayError (create_session_error 401 body) =
        displayError (create_session_error 401 body2) ∧
      create_session_error 401 body = invalidCredsMsg ∧
      create_session_error 404 body = endpointNotFoundMsg ∧
      send_message_error 401 sid body = invalidCredsMsg := by
  refine ⟨rfl, ?_, ?_, ?_⟩
  · rw [create_session_error, if_pos rfl]
  · rw [create_session_error, if_neg (by decide), if_pos rfl]
  · rw [send_message_error, if_pos rfl]

/-- Claim C7 counterexample: a 500 on session creation is displayed with
the raw server body embedded (here the body is a suffix of the displayed
string), so protocol failures are not all converted to fixed, non-leaking
strings. -/
theorem c7_counterexample :
    displayError (create_session_error 500 (toStr ("secret-server-body"))) =
        toStr ("❌ Error: API error: 500 - ") ++ toStr ("secret-server-body") ∧
      (toStr ("secret-server-body")) <:+
        displayError (create_session_error 500 (toStr ("secret-server-body"))) ∧
      toStr ("secret-server-body") ≠ [] :=
  ⟨rfl, ⟨toStr ("❌ Error: API error: 500 - "), rfl⟩, by decide⟩

theorem char_toNat_ofNat_lt (m : Nat) (h : m < 55296) : (Char.ofNat m).toNat = m := by
  unfold Char.ofNat
  rw [dif_pos (Or.inl h)]
  unfold Char.ofNatAux Char.toNat UInt32.toNat
  simp

theorem pyIsSpace_pyLowerChar (c : Char) : pyIsSpace (pyLowerChar c) = pyIsSpace c := by
  unfold pyLowerChar
  split_ifs with h
  · obtain ⟨h1, h2⟩ := h
    have hc : 65 ≤ c.toNat ∧ c.toNat ≤ 90 := by
      have g1 : ('A' : Char).toNat ≤ c.toNat := by
        exact Nat.le_of_lt_succ (Nat.lt_succ_of_le h1)
      have g2 : c.toNat ≤ ('Z' : Char).toNat := by
        exact Nat.le_of_lt_succ (Nat.lt_succ_of_le h2)
      exact ⟨g1, g2⟩
    have hlo : (Char.ofNat (c.toNat + 32)).toNat = c.toNat + 32 := by
      apply char_toNat_ofNat_lt
      omega
    have g1 : pyIsSpace (Char.ofNat (c.toNat + 32)) = false := by
      unfold pyIsSpace spaceCodes
      rw [hlo]
      simp only [List.mem_cons, List.not_mem_nil, or_false, decide_eq_false_iff_not]
      omega
    have g2 : pyIsSpace c = false := by
      unfold pyIsSpace spaceCodes
      simp only [List.mem_cons, List.not_mem_nil, or_false, decide_eq_false_iff_not]
      omega
    rw [g1, g2]
  · rfl

theorem dropWhile_map_pyLower (s : Str) :
    List.dropWhile pyIsSpace (s.map pyLowerChar) =
      (List.dropWhile pyIsSpace s).map pyLowerChar := by
  induction s with
  | nil => rfl
  | cons c rest ih =>
    simp only [List.map_cons, List.dropWhile_cons, pyIsSpace_pyLowerChar]
    by_cases h : pyIsSpace c = true
    · rw [h]
      simpa using ih
    · have h2 : pyIsSpace c = false := by
        cases hv : pyIsSpace c
        · rfl
        · exact absurd hv h
      rw [h2]
      simp only [Bool.false_eq_true, if_false, List.map_cons]

theorem pyLower_reverse (s : Str) : (s.reverse).map pyLowerChar = (s.map pyLowerChar).reverse := by
  rw [List.map_reverse]

/-- Lowercasing commutes with stripping: the loop's
`message.lower().strip()` equals `message.strip().lower()`. -/
theorem pyStrip_pyLower (s : Str) : pyStrip (pyLower s) = pyLower (pyStrip s) := by
  unfold pyStrip pyLower pyRstrip pyLstrip
  rw [← pyLower_reverse, dropWhile_map_pyLower, ← pyLower_reverse, dropWhile_map_pyLower]

/-- Claim C9: the interactive loop's quit test fires exactly when the
input, after trimming whitespace and lowercasing, is one of `quit`,
`exit`, `q`; matching is case-insensitive and whole-input only. -/
theorem c9_quit_keywords (msg : Str) :
    shouldQuit msg = true ↔
      (pyLower (pyStrip msg) = toStr ("quit") ∨
        pyLower (pyStrip msg) = toStr ("exit") ∨
        pyLower (pyStrip msg) = toStr ("q")) := by
  unfold shouldQuit
  rw [pyStrip_pyLower]
  simp [quitKeywords]

example : shouldQuit (toStr ("Exit")) = true := by decide

example : shouldQuit (toStr ("  Q  ")) = true := by decide

example : shouldQuit (toStr ("quitter")) = false := by decide

example : shouldQuit (toStr ("quit")) = true := by decide

/-- Claim C8: for a proposed file that does not yet exist, the user is
prompted to save with default accept; accepting creates the file with
exactly the proposed content and reports success; declining creates no
file and reports a skip; if the file already exists the prompt is an
overwrite prompt with default decline. -/
theorem c8_file_proposal (fs : FileSys) (reply : Option Bool) (f c : Str) :
    (fileExistsB fs f = false →
      (handle_file_action fs reply true f c).2.1 = confirm_save ∧
      confirm_save.defaultAnswer = true ∧
      (resolvePrompt confirm_save reply = true →
        readFile (handle_file_action fs reply true f c).1 f = some c ∧
        (handle_file_action fs reply true f c).2.2 = FileOutcome.saved f) ∧
      (resolvePrompt confirm_save reply = false →
        (handle_file_action fs reply true f c).1 = fs ∧
        fileExistsB (handle_file_action fs reply true f c).1 f = false ∧
        (handle_file_action fs reply true f c).2.2 = FileOutcome.skipped f)) ∧
    (fileExistsB fs f = true →
      (handle_file_action fs reply true f c).2.1 = confirm_overwrite ∧
      confirm_overwrite.defaultAnswer = false) := by
  constructor
  · intro hne
    unfold handle_file_action
    simp only [hne, Bool.false_eq_true, if_false]
    refine ⟨?_, rfl, ?_, ?_⟩
    · by_cases hr : resolvePrompt confirm_save reply = true <;> simp [hr]
    · intro hacc
      rw [if_pos hacc]
      simp only [if_true]
      constructor
      · unfold readFile
        simp [List.lookup]
      · trivial
    · intro hdec
      rw [if_neg (by rw [hdec]; exact Bool.false_ne_true)]
      exact ⟨rfl, hne, rfl⟩
  · intro hex
    unfold handle_file_action
    simp only [hex, if_true]
    split_ifs <;> exact ⟨rfl, rfl⟩

/-- Claim C8 witness: a proposal for a fresh file with a default-accepting
reply writes exactly the proposed content and reports success; an explicit
decline writes nothing and reports a skip; a proposal for an existing file
asks the overwrite question. -/
theorem c8_witness :
    fileExistsB [] (toStr ("out.txt")) = false ∧
      readFile (handle_file_action [] none true (toStr ("out.txt")) (toStr ("X"))).1
        (toStr ("out.txt")) = some (toStr ("X")) ∧
      (handle_file_action [] none true (toStr ("out.txt")) (toStr ("X"))).2.2 =
        FileOutcome.saved (toStr ("out.txt")) ∧
      (handle_file_action [] (some false) true (toStr ("out.txt")) (toStr ("X"))).1 =
        ([] : FileSys) ∧
      (handle_file_action [] (some false) true (toStr ("out.txt")) (toStr ("X"))).2.2 =
        FileOutcome.skipped (toStr ("out.txt")) ∧
      (handle_file_action [(toStr ("out.txt"), toStr ("old"))] none true
        (toStr ("out.txt")) (toStr ("X"))).2.1 = confirm_overwrite := by
  refine ⟨rfl, ?_, ?_, ?_, ?_, ?_⟩
  · exact (((c8_file_proposal [] none (toStr ("out.txt")) (toStr ("X"))).1 rfl).2.2.1 rfl).1
  · exact (((c8_file_proposal [] none (toStr ("out.txt")) (toStr ("X"))).1 rfl).2.2.1 rfl).2
  · exact (((c8_file_proposal [] (some false) (toStr ("out.txt")) (toStr ("X"))).1 rfl).2.2.2 rfl).1
  · exact (((c8_file_proposal [] (some false) (toStr ("out.txt")) (toStr ("X"))).1 rfl).2.2.2 rfl).2.2
  · exact ((c8_file_proposal [(toStr ("out.txt"), toStr ("old"))] none
      (toStr ("out.txt")) (toStr ("X"))).2 rfl).1

